import Mathlib

/-!
Shallow embedding of `easyui/widgets/live_graph.py` (class `LiveGraph`).

Conventions of the embedding:
* Python floats (timestamps and sample values) are modelled as `ℚ`.
* The per-series sample buffers (`self.data`, a dict from series name to a
  list of `(t, y)` pairs) are modelled as an association list
  `List (String × List (ℚ × ℚ))`; `dict.get(name, [])` is `lookupBuf` and
  in-place mutation of one key is `updateBuf`.
* External effects are explicit inputs/outputs: `time.time()` becomes a
  `now : ℚ` argument, the sampler's return value becomes a `SamplerResult`
  argument, `canvas.winfo_width/height` become `rawW rawH : ℤ` arguments,
  `parent.after` becomes a `scheduled` field in the step result together
  with a fresh handle argument, and canvas drawing becomes a `List DrawCmd`.
* A Python `ValueError` / `float()` conversion failure raised by
  `_append_sample` becomes an `Option AppendErr` component; because Python
  mutates `self.data` in place, the state reached at the moment of the
  raise is returned alongside the error.
-/

namespace EasyUI

/-- A value stored in the sampler's mapping for some series name:
either a value that `float()` converts (carrying the converted number),
or a value on which `float()` raises. -/
inductive SVal where
  | num (y : ℚ)
  | bad
  deriving DecidableEq

/-- The value returned by one call of the host-supplied sampler:
a bare number, a mapping from series name to value, or anything else
(neither `int`/`float` nor `dict`). -/
inductive SamplerResult where
  | number (y : ℚ)
  | mapping (m : List (String × SVal))
  | other
  deriving DecidableEq

/-- The exceptions `_append_sample` can raise:
`ValueError("Sampler returned a number but series has multiple names.")`,
`ValueError("Sampler must return dict{name: value} or a single number for 1 series.")`,
or the error raised by `float(result[name])` for series `name`. -/
inductive AppendErr where
  | numberMultiSeries
  | notDict
  | floatConv (name : String)
  deriving DecidableEq

/-- The construction-time configuration of a `LiveGraph` (immutable after
`__init__`): the ordered series-name list and the tunables used by the
sampling and drawing code. -/
structure GraphConfig where
  series : List String
  max_points : Nat
  window_seconds : ℚ
  y_padding : ℚ
  smooth_y : ℚ
  show_log : Bool
  interval_ms : Nat
  deriving DecidableEq

/-- The mutable state of a `LiveGraph` instance: `self._running`,
`self._after_id`, `self.data`, the smoothed range `self._y_min`/`self._y_max`,
the lines appended to the log panel (each line kept as its
`(name, value)` parts; the wall-clock prefix and the `%.3f` rendering of
the value are presentation details of the `tk.Text` widget), and the
Start/Stop button label. -/
structure GraphState where
  running : Bool
  after_id : Option Nat
  data : List (String × List (ℚ × ℚ))
  y_min : Option ℚ
  y_max : Option ℚ
  logLines : List (List (String × ℚ))
  btnText : String
  deriving DecidableEq

/-- State right after `__init__`: stopped, no pending callback, one empty
buffer per configured series, uninitialized smoothed range. -/
def initState (cfg : GraphConfig) : GraphState :=
  { running := false
    after_id := none
    data := cfg.series.map (fun n => (n, []))
    y_min := none
    y_max := none
    logLines := []
    btnText := "Start" }

/-- `self.data.get(name, [])`: the buffer stored under `name`
(first matching entry), or `[]` when absent. -/
def lookupBuf : List (String × List (ℚ × ℚ)) → String → List (ℚ × ℚ)
  | [], _ => []
  | p :: d, name => if p.1 = name then p.2 else lookupBuf d name

/-- `self.data[name] = f(self.data[name])`: rewrite the entries stored
under `name`, leaving other keys alone. -/
def updateBuf (d : List (String × List (ℚ × ℚ))) (n : String)
    (f : List (ℚ × ℚ) → List (ℚ × ℚ)) : List (String × List (ℚ × ℚ)) :=
  d.map (fun p => if p.1 = n then (p.1, f p.2) else p)

/-- `dict` key lookup in the sampler's mapping (`name in result`,
`result[name]`). -/
def lookupVal (m : List (String × SVal)) (name : String) : Option SVal :=
  match m with
  | [] => none
  | p :: rest => if p.1 = name then some p.2 else lookupVal rest name

/-- The hard cap: `if len(buf) > max_points: buf = buf[-max_points:]`.
Note Python's `buf[-0:]` is the whole list, so a cap of `0` never trims. -/
def hardCap (maxPoints : Nat) (buf : List (ℚ × ℚ)) : List (ℚ × ℚ) :=
  if maxPoints < buf.length then
    if maxPoints = 0 then buf else buf.drop (buf.length - maxPoints)
  else buf

/-- The window trim for one buffer:
`[(t, y) for (t, y) in buf if t >= cutoff]`. -/
def windowTrim (cutoff : ℚ) (buf : List (ℚ × ℚ)) : List (ℚ × ℚ) :=
  buf.filter (fun p => decide (cutoff ≤ p.1))

/-- `for name in self.series: self.data[name] = [... if t >= cutoff]`:
apply the window trim to each listed series in order. -/
def trimAll (cutoff : ℚ) : List String → List (String × List (ℚ × ℚ)) →
    List (String × List (ℚ × ℚ))
  | [], d => d
  | n :: rest, d => trimAll cutoff rest (updateBuf d n (windowTrim cutoff))

/-- The `for idx, name in enumerate(self.series)` loop of `_append_sample`:
for each configured series present in the mapping, convert the value with
`float` (raising `floatConv` on failure, with the buffers mutated so far),
append `(now, y)`, apply the hard cap, and record the `name=value` log part. -/
def appendLoop (maxPoints : Nat) (now : ℚ) (m : List (String × SVal)) :
    List String → List (String × List (ℚ × ℚ)) → List (String × ℚ) →
    List (String × List (ℚ × ℚ)) × List (String × ℚ) × Option AppendErr
  | [], data, parts => (data, parts, none)
  | name :: rest, data, parts =>
    match lookupVal m name with
    | none => appendLoop maxPoints now m rest data parts
    | some SVal.bad => (data, parts, some (AppendErr.floatConv name))
    | some (SVal.num y) =>
        appendLoop maxPoints now m rest
          (updateBuf data name (fun buf => hardCap maxPoints (buf ++ [(now, y)])))
          (parts ++ [(name, y)])

/-- The body of `_append_sample` once `result` has been normalized to a
mapping: run the series loop, then (when no exception was raised) trim
every series to the time window and, if the log panel exists and at least
one series received a value, append one log line. -/
def appendMapping (cfg : GraphConfig) (st : GraphState) (now : ℚ)
    (m : List (String × SVal)) : GraphState × Option AppendErr :=
  let r := appendLoop cfg.max_points now m cfg.series st.data []
  match r.2.2 with
  | some e => ({ st with data := r.1 }, some e)
  | none =>
      let cutoff := now - cfg.window_seconds
      let data2 := trimAll cutoff cfg.series r.1
      let parts := r.2.1
      let newLog :=
        if cfg.show_log ∧ parts ≠ [] then st.logLines ++ [parts] else st.logLines
      ({ st with data := data2, logLines := newLog }, none)

/-- `LiveGraph._append_sample`: take `now`, call the sampler; a bare number
is legal only when exactly one series is configured (it becomes a singleton
mapping for that series); any result that is neither a number nor a dict is
a `ValueError`; otherwise run the mapping path. -/
def appendSample (cfg : GraphConfig) (st : GraphState) (now : ℚ)
    (result : SamplerResult) : GraphState × Option AppendErr :=
  match result with
  | SamplerResult.number y =>
      if cfg.series.length ≠ 1 then (st, some AppendErr.numberMultiSeries)
      else appendMapping cfg st now [(cfg.series.headD "", SVal.num y)]
  | SamplerResult.mapping m => appendMapping cfg st now m
  | SamplerResult.other => (st, some AppendErr.notDict)

/-- The fixed six-color palette `_SERIES_COLORS`. -/
def SERIES_COLORS : List String :=
  ["#00D1B2", "#FF6B6B", "#FFD93D", "#6BCBFF", "#B28DFF", "#A3E635"]

/-- One canvas drawing instruction issued by `redraw` (after
`canvas.delete("all")`).  `valText` is `create_text(..., text=f"{v:.2f}")`
carrying the raw value and `timeText` is
`create_text(..., text=time.strftime("%H:%M:%S", time.localtime(tv)))`
carrying the raw time value; the decimal / wall-clock string rendering is
abstracted since it depends on float formatting and the host timezone. -/
inductive DrawCmd where
  | line (coords : List ℚ) (width : ℚ) (color : String)
  | rect (xa ya xb yb : ℚ) (fill outline : String)
  | oval (xa ya xb yb : ℚ) (fill outline : String)
  | text (x y : ℚ) (anchor fill content : String)
  | valText (x y : ℚ) (anchor fill : String) (v : ℚ)
  | timeText (x y : ℚ) (anchor fill : String) (tv : ℚ)
  deriving DecidableEq

/-- `min` of a nonempty Python iterable of floats (`0` on the empty list,
which the call sites never pass). -/
def listMin : List ℚ → ℚ
  | [] => 0
  | x :: xs => xs.foldl min x

/-- `max` of a nonempty Python iterable of floats. -/
def listMax : List ℚ → ℚ
  | [] => 0
  | x :: xs => xs.foldl max x

/-- `all_points`: the concatenation of `self.data.get(name, [])` over the
configured series, in series order. -/
def allPoints (cfg : GraphConfig) (data : List (String × List (ℚ × ℚ))) :
    List (ℚ × ℚ) :=
  (cfg.series.map (fun n => lookupBuf data n)).flatten

/-- `a = max(0.0, min(1.0, self.smooth_y))`. -/
def clamp01 (a : ℚ) : ℚ := max 0 (min 1 a)

/-- The smoothed y-range update of `redraw` (lines 214-224): seed from the
raw bounds when uninitialized, otherwise blend with the clamped smoothing
factor and then widen to contain the raw bounds. -/
def updateRange (smoothY : ℚ) (oyMin oyMax : Option ℚ) (rawMin rawMax : ℚ) :
    ℚ × ℚ :=
  match oyMin, oyMax with
  | some om, some oM =>
      let a := clamp01 smoothY
      (min ((1 - a) * om + a * rawMin) rawMin,
       max ((1 - a) * oM + a * rawMax) rawMax)
  | _, _ => (rawMin, rawMax)

/-- `_draw_frame`: the background rectangle with border. -/
def drawFrameCmds (w h : ℤ) : List DrawCmd :=
  [DrawCmd.rect (54 : ℚ) (16 : ℚ) ((w - 16 : ℤ) : ℚ) ((h - 44 : ℤ) : ℚ)
     "#111111" "#444444"]

/-- `x_of`: affine map from time to x pixel. -/
def xOf (x0 x1 tMin tMax t : ℚ) : ℚ :=
  x0 + (t - tMin) / (tMax - tMin) * (x1 - x0)

/-- `y_of`: affine map from value to y pixel. -/
def yOf (y0 y1 yMin yMax y : ℚ) : ℚ :=
  y1 - (y - yMin) / (yMax - yMin) * (y1 - y0)

/-- `_draw_grid_and_labels`: five horizontal grid lines with value labels,
five vertical grid lines with wall-clock labels (first anchored "nw", last
"ne", middle "n"), then the two axis captions. -/
def gridCmds (x0 x1 y0 y1 tMin tMax yMin yMax : ℚ) (w h : ℤ) : List DrawCmd :=
  ((List.range 5).map (fun i =>
      let frac : ℚ := (i : ℚ) / 4
      let yv := yMin + frac * (yMax - yMin)
      let y := y1 - frac * (y1 - y0)
      [DrawCmd.line [x0, y, x1, y] 1 "#2A2A2A",
       DrawCmd.valText 6 y "w" "#AAAAAA" yv])).flatten
  ++
  (let window := max (1 / 1000000 : ℚ) (tMax - tMin)
   ((List.range 5).map (fun i =>
      let frac : ℚ := (i : ℚ) / 4
      let tv := tMin + frac * window
      let x := x0 + frac * (x1 - x0)
      let anchor := if i = 0 then "nw" else if i = 4 then "ne" else "n"
      [DrawCmd.line [x, y0, x, y1] 1 "#2A2A2A",
       DrawCmd.timeText x ((h : ℚ) - 44 + 4) anchor "#AAAAAA" tv])).flatten)
  ++
  [DrawCmd.text 54 2 "nw" "#AAAAAA" "Value",
   DrawCmd.text ((w / 2 : ℤ) : ℚ) ((h : ℚ) - 2) "s" "#AAAAAA" "Time"]

/-- The per-series polylines and last-value markers: for each series with at
least two buffered points, one `create_line` through the mapped points
(width 2, palette color cycled by index) and one `create_oval` marker at
the mapped last point. -/
def seriesCmds (cfg : GraphConfig) (data : List (String × List (ℚ × ℚ)))
    (x0 x1 y0 y1 tMin tMax yMin yMax : ℚ) : List DrawCmd :=
  (cfg.series.enum.map (fun p =>
    let pts := lookupBuf data p.2
    if pts.length < 2 then []
    else
      let coords := (pts.map (fun q =>
        [xOf x0 x1 tMin tMax q.1, yOf y0 y1 yMin yMax q.2])).flatten
      let color := SERIES_COLORS.getD (p.1 % SERIES_COLORS.length) ""
      let lastPt := pts.getLastD (0, 0)
      let lx := xOf x0 x1 tMin tMax lastPt.1
      let ly := yOf y0 y1 yMin yMax lastPt.2
      [DrawCmd.line coords 2 color,
       DrawCmd.oval (lx - 3) (ly - 3) (lx + 3) (ly + 3) color ""])).flatten

/-- `_draw_legend`: a color swatch and the series name for every configured
series, stacked from `y0 + 6` with a 14-pixel step. -/
def legendCmds (cfg : GraphConfig) (x1 y0 : ℚ) : List DrawCmd :=
  let x := x1 - 6
  (cfg.series.enum.map (fun p =>
    let y := y0 + 6 + 14 * (p.1 : ℚ)
    let color := SERIES_COLORS.getD (p.1 % SERIES_COLORS.length) ""
    [DrawCmd.rect (x - 90) y (x - 76) (y + 10) color "",
     DrawCmd.text (x - 72) (y + 5) "w" "#DDDDDD" p.2])).flatten

/-- The drawing instructions of `redraw`'s main path, given the smoothed
bounds `ym ≤ yM` chosen by the range update: degenerate-range guards,
padding, frame, grid and labels, series polylines, legend. -/
def renderCmds (cfg : GraphConfig) (data : List (String × List (ℚ × ℚ)))
    (w h : ℤ) (ym yM : ℚ) : List DrawCmd :=
  let pts := allPoints cfg data
  let tMin := listMin (pts.map Prod.fst)
  let tMax0 := listMax (pts.map Prod.fst)
  let tMax := if tMax0 = tMin then tMin + 1 else tMax0
  let yM1 := if yM = ym then ym + 1 else yM
  let yRng := yM1 - ym
  let ym2 := ym - yRng * cfg.y_padding
  let yM2 := yM1 + yRng * cfg.y_padding
  let yM3 := if yM2 = ym2 then ym2 + 1 else yM2
  let x0 : ℚ := 54
  let x1 : ℚ := ((w - 16 : ℤ) : ℚ)
  let y0 : ℚ := 16
  let y1 : ℚ := ((h - 44 : ℤ) : ℚ)
  drawFrameCmds w h
  ++ gridCmds x0 x1 y0 y1 tMin tMax ym2 yM3 w h
  ++ seriesCmds cfg data x0 x1 y0 y1 tMin tMax ym2 yM3
  ++ legendCmds cfg x1 y0

/-- `LiveGraph.redraw`: clamp the surface to at least 10×10, clear, gather
all points; with fewer than 2 points draw the empty frame and the waiting
placeholder and change nothing; otherwise update the smoothed y-range and
render. Returns the updated state and the issued drawing instructions. -/
def redraw (cfg : GraphConfig) (st : GraphState) (rawW rawH : ℤ) :
    GraphState × List DrawCmd :=
  let w : ℤ := max 10 rawW
  let h : ℤ := max 10 rawH
  let pts := allPoints cfg st.data
  if pts.length < 2 then
    (st, drawFrameCmds w h ++
      [DrawCmd.text ((w / 2 : ℤ) : ℚ) ((h / 2 : ℤ) : ℚ) "center" "#777"
        "Waiting for data…"])
  else
    let rawMin := listMin (pts.map Prod.snd)
    let rawMax := listMax (pts.map Prod.snd)
    let r := updateRange cfg.smooth_y st.y_min st.y_max rawMin rawMax
    ({ st with y_min := some r.1, y_max := some r.2 },
     renderCmds cfg st.data w h r.1 r.2)

/-- The outcome of one control-flow step (`_tick`, `start`, `sample_once`):
the state afterwards, the delay of a `parent.after` call when one was
issued, the drawing instructions of the redraw when one ran, and the
exception propagated to the caller when `_append_sample` raised. -/
structure StepResult where
  state : GraphState
  scheduled : Option Nat
  cmds : List DrawCmd
  error : Option AppendErr
  deriving DecidableEq

/-- `LiveGraph._tick`: a no-op when no longer running; otherwise
sample-and-append (an exception propagates with no redraw and no
reschedule), redraw, and schedule the next tick, storing the fresh
handle `newId` in `_after_id`. -/
def tick (cfg : GraphConfig) (st : GraphState) (now : ℚ)
    (result : SamplerResult) (rawW rawH : ℤ) (newId : Nat) : StepResult :=
  if st.running then
    let a := appendSample cfg st now result
    match a.2 with
    | some e => ⟨a.1, none, [], some e⟩
    | none =>
        let r := redraw cfg a.1 rawW rawH
        ⟨{ r.1 with after_id := some newId }, some cfg.interval_ms, r.2, none⟩
  else ⟨st, none, [], none⟩

/-- `LiveGraph.stop`: unconditionally clear the running flag, flip the
button label back, and cancel any pending callback (cancellation failures
are swallowed), clearing the handle. -/
def stop (st : GraphState) : GraphState :=
  { st with running := false, btnText := "Start", after_id := none }

/-- `LiveGraph.start`: a no-op when already running; otherwise set the
running flag, flip the button label, and run the first tick immediately. -/
def start (cfg : GraphConfig) (st : GraphState) (now : ℚ)
    (result : SamplerResult) (rawW rawH : ℤ) (newId : Nat) : StepResult :=
  if st.running then ⟨st, none, [], none⟩
  else tick cfg { st with running := true, btnText := "Stop" } now result rawW rawH newId

/-- `LiveGraph.sample_once`: one sample-and-append (an exception propagates
with no redraw) followed by one redraw; no scheduling. -/
def sampleOnce (cfg : GraphConfig) (st : GraphState) (now : ℚ)
    (result : SamplerResult) (rawW rawH : ℤ) : StepResult :=
  let a := appendSample cfg st now result
  match a.2 with
  | some e => ⟨a.1, none, [], some e⟩
  | none =>
      let r := redraw cfg a.1 rawW rawH
      ⟨r.1, none, r.2, none⟩

/-- What one iteration of the append loop does to the buffer of one series:
append `(now, y)` and hard-cap when the series is mapped to a numeric
value, nothing otherwise. -/
def stepBuf (maxPoints : Nat) (now : ℚ) (m : List (String × SVal))
    (name : String) (buf : List (ℚ × ℚ)) : List (ℚ × ℚ) :=
  match lookupVal m name with
  | some (SVal.num y) => hardCap maxPoints (buf ++ [(now, y)])
  | _ => buf

/-- The `name=value` log parts produced for a list of series names: one
entry per configured series that the mapping assigns a numeric value,
in series order. -/
def partsOf (m : List (String × SVal)) (names : List String) :
    List (String × ℚ) :=
  names.filterMap (fun n =>
    match lookupVal m n with
    | some (SVal.num y) => some (n, y)
    | _ => none)

/-- A concrete one-series configuration used by the concrete instances
below. -/
def cfgSmall : GraphConfig := ⟨["a"], 2000, 30, 1/10, 1/5, false, 100⟩

/-- A concrete state whose smoothed range `(0, 1)` lags behind the raw
bounds `(5, 6)` of its buffered points — reachable when the samples that
set the old range have been trimmed out of the window. -/
def stLag : GraphState :=
  ⟨false, none, [("a", [(100, 5), (101, 6)])], some 0, some 1, [], "Start"⟩

/-- The same buffers with an uninitialized smoothed range. -/
def stSeed : GraphState :=
  ⟨false, none, [("a", [(100, 5), (101, 6)])], none, none, [], "Start"⟩

/-! ### Association-list lemmas -/

theorem lookupBuf_eq_nil_of_notMem {d : List (String × List (ℚ × ℚ))}
    {name : String} (h : name ∉ d.map Prod.fst) : lookupBuf d name = [] := by
  induction d with
  | nil => rfl
  | cons p d ih =>
      simp only [List.map_cons, List.mem_cons] at h
      push_neg at h
      simp only [lookupBuf, ih h.2]
      rw [if_neg (fun hc => h.1 hc.symm)]

theorem lookupBuf_updateBuf_ne {d : List (String × List (ℚ × ℚ))}
    {n name : String} (f : List (ℚ × ℚ) → List (ℚ × ℚ)) (h : name ≠ n) :
    lookupBuf (updateBuf d n f) name = lookupBuf d name := by
  induction d with
  | nil => rfl
  | cons p d ih =>
      by_cases hp : p.1 = n
      · simp only [updateBuf, List.map_cons, lookupBuf, hp, if_pos rfl] at *
        rw [if_neg (by simpa [hp] using (Ne.symm h)), if_neg (by simpa [hp] using (Ne.symm h))]
        exact ih
      · simp only [updateBuf, List.map_cons, if_neg hp, lookupBuf] at *
        by_cases hq : p.1 = name
        · simp [hq]
        · simp only [if_neg hq]; exact ih

theorem lookupBuf_updateBuf_self {d : List (String × List (ℚ × ℚ))}
    {n : String} (f : List (ℚ × ℚ) → List (ℚ × ℚ)) (h : n ∈ d.map Prod.fst) :
    lookupBuf (updateBuf d n f) n = f (lookupBuf d n) := by
  induction d with
  | nil => simp at h
  | cons p d ih =>
      by_cases hp : p.1 = n
      · simp [updateBuf, lookupBuf, hp]
      · simp only [List.map_cons, List.mem_cons] at h
        rcases h with h | h
        · exact absurd h.symm hp
        · simp only [updateBuf, List.map_cons, if_neg hp, lookupBuf, if_neg hp]
          exact ih h

theorem lookupBuf_updateBuf_self_of_notMem {d : List (String × List (ℚ × ℚ))}
    {n : String} (f : List (ℚ × ℚ) → List (ℚ × ℚ)) (h : n ∉ d.map Prod.fst) :
    lookupBuf (updateBuf d n f) n = lookupBuf d n := by
  induction d with
  | nil => rfl
  | cons p d ih =>
      simp only [List.map_cons, List.mem_cons] at h
      push_neg at h
      have hp : p.1 ≠ n := fun hc => h.1 hc.symm
      simp only [updateBuf, List.map_cons, if_neg hp, lookupBuf]
      exact ih h.2

theorem updateBuf_map_fst (d : List (String × List (ℚ × ℚ))) (n : String)
    (f : List (ℚ × ℚ) → List (ℚ × ℚ)) :
    (updateBuf d n f).map Prod.fst = d.map Prod.fst := by
  unfold updateBuf
  rw [List.map_map]
  apply List.map_congr_left
  intro p _
  by_cases hp : p.1 = n <;> simp [hp]

theorem windowTrim_windowTrim (c : ℚ) (buf : List (ℚ × ℚ)) :
    windowTrim c (windowTrim c buf) = windowTrim c buf := by
  simp [windowTrim, List.filter_filter]

/-- Pointwise characterization of the window-trim pass: a listed series
gets its buffer filtered to the window, everything else is untouched. -/
theorem lookupBuf_trimAll (c : ℚ) (names : List String) :
    ∀ (d : List (String × List (ℚ × ℚ))) (name : String),
      lookupBuf (trimAll c names d) name =
        if name ∈ names then windowTrim c (lookupBuf d name)
        else lookupBuf d name := by
  induction names with
  | nil => intro d name; simp [trimAll]
  | cons n rest ih =>
      intro d name
      simp only [trimAll]
      rw [ih]
      by_cases hr : name ∈ rest
      · rw [if_pos hr, if_pos (List.mem_cons_of_mem _ hr)]
        by_cases hn : name = n
        · subst hn
          by_cases hm : name ∈ d.map Prod.fst
          · rw [lookupBuf_updateBuf_self _ hm, windowTrim_windowTrim]
          · rw [lookupBuf_updateBuf_self_of_notMem _ hm]
        · rw [lookupBuf_updateBuf_ne _ hn]
      · rw [if_neg hr]
        by_cases hn : name = n
        · subst hn
          rw [if_pos (List.mem_cons_self _ _)]
          by_cases hm : name ∈ d.map Prod.fst
          · rw [lookupBuf_updateBuf_self _ hm]
          · rw [lookupBuf_updateBuf_self_of_notMem _ hm,
              lookupBuf_eq_nil_of_notMem hm]
            rfl
        · rw [lookupBuf_updateBuf_ne _ hn,
            if_neg (by simp [List.mem_cons, hn, hr])]

theorem trimAll_map_fst (c : ℚ) (names : List String) :
    ∀ d : List (String × List (ℚ × ℚ)),
      (trimAll c names d).map Prod.fst = d.map Prod.fst := by
  induction names with
  | nil => intro d; rfl
  | cons n rest ih => intro d; simp only [trimAll]; rw [ih, updateBuf_map_fst]

/-! ### Append-loop lemmas -/

theorem length_hardCap_append {k : Nat} (hk : 1 ≤ k)
    {buf : List (ℚ × ℚ)} (hb : buf.length ≤ k) (x : ℚ × ℚ) :
    (hardCap k (buf ++ [x])).length ≤ k := by
  unfold hardCap
  by_cases h1 : k < (buf ++ [x]).length
  · rw [if_pos h1, if_neg (by omega)]
    simp only [List.length_drop]
    omega
  · rw [if_neg h1]
    simp only [List.length_append, List.length_cons, List.length_nil] at h1 ⊢
    omega

/-- Every series buffer stays at or below the cap across the append loop
(also when the loop exits early on a conversion error), provided the cap
is at least 1 and every buffer respected it beforehand. -/
theorem appendLoop_length_le {k : Nat} (hk : 1 ≤ k) (now : ℚ)
    (m : List (String × SVal)) (names : List String) :
    ∀ (data : List (String × List (ℚ × ℚ))) (parts : List (String × ℚ)),
      (∀ name, (lookupBuf data name).length ≤ k) →
      ∀ name, (lookupBuf (appendLoop k now m names data parts).1 name).length ≤ k := by
  induction names with
  | nil => intro data parts hb name; exact hb name
  | cons n rest ih =>
      intro data parts hb name
      simp only [appendLoop]
      cases hv : lookupVal m n with
      | none => exact ih data parts hb name
      | some v =>
          cases v with
          | bad => exact hb name
          | num y =>
              refine ih _ _ ?_ name
              intro name'
              by_cases hn : name' = n
              · subst hn
                by_cases hm : name' ∈ data.map Prod.fst
                · rw [lookupBuf_updateBuf_self _ hm]
                  exact length_hardCap_append hk (hb name') _
                · rw [lookupBuf_updateBuf_self_of_notMem _ hm]
                  exact hb name'
              · rw [lookupBuf_updateBuf_ne _ hn]
                exact hb name'

/-- Characterization of a complete (error-free) run of the append loop over
distinct series names whose mapped values all convert: no error, the log
parts are exactly the mapped series in order, the key list is unchanged,
and each listed series' buffer gets exactly one `(now, y)` appended (then
hard-capped) while every other buffer is untouched. -/
theorem appendLoop_ok {k : Nat} (now : ℚ) (m : List (String × SVal))
    (names : List String) :
    ∀ (data : List (String × List (ℚ × ℚ))) (parts : List (String × ℚ)),
      names.Nodup →
      (∀ n ∈ names, n ∈ data.map Prod.fst) →
      (∀ n ∈ names, lookupVal m n ≠ some SVal.bad) →
      (appendLoop k now m names data parts).2.2 = none ∧
      (appendLoop k now m names data parts).2.1 = parts ++ partsOf m names ∧
      (appendLoop k now m names data parts).1.map Prod.fst = data.map Prod.fst ∧
      ∀ name, lookupBuf (appendLoop k now m names data parts).1 name =
        if name ∈ names then stepBuf k now m name (lookupBuf data name)
        else lookupBuf data name := by
  induction names with
  | nil =>
      intro data parts _ _ _
      refine ⟨rfl, by simp [appendLoop, partsOf], rfl, fun name => by simp [appendLoop]⟩
  | cons n rest ih =>
      intro data parts hnd hkeys hgood
      have hnr : n ∉ rest := (List.nodup_cons.mp hnd).1
      have hndr : rest.Nodup := (List.nodup_cons.mp hnd).2
      simp only [appendLoop]
      cases hv : lookupVal m n with
      | none =>
          rcases ih data parts hndr
              (fun a ha => hkeys a (List.mem_cons_of_mem _ ha))
              (fun a ha => hgood a (List.mem_cons_of_mem _ ha)) with
            ⟨he, hp, hkf, hlk⟩
          refine ⟨he, ?_, hkf, ?_⟩
          · rw [hp]
            simp [partsOf, hv]
          · intro name
            rw [hlk name]
            by_cases hr : name ∈ rest
            · rw [if_pos hr, if_pos (List.mem_cons_of_mem _ hr)]
            · rw [if_neg hr]
              by_cases hn : name = n
              · subst hn
                rw [if_pos (List.mem_cons_self _ _), stepBuf, hv]
              · rw [if_neg (by simp [List.mem_cons, hn, hr])]
      | some v =>
          cases v with
          | bad => exact absurd hv (hgood n (List.mem_cons_self _ _))
          | num y =>
              set data1 := updateBuf data n
                (fun buf => hardCap k (buf ++ [(now, y)])) with hdata1
              have hkeys1 : data1.map Prod.fst = data.map Prod.fst :=
                updateBuf_map_fst _ _ _
              rcases ih data1 (parts ++ [(n, y)]) hndr
                  (fun a ha => by
                    rw [hkeys1]; exact hkeys a (List.mem_cons_of_mem _ ha))
                  (fun a ha => hgood a (List.mem_cons_of_mem _ ha)) with
                ⟨he, hp, hkf, hlk⟩
              refine ⟨he, ?_, by rw [hkf, hkeys1], ?_⟩
              · rw [hp]
                simp [partsOf, hv]
              · intro name
                rw [hlk name]
                by_cases hr : name ∈ rest
                · rw [if_pos hr, if_pos (List.mem_cons_of_mem _ hr)]
                  have hne : name ≠ n := fun hc => hnr (hc ▸ hr)
                  rw [hdata1, lookupBuf_updateBuf_ne _ hne]
                · rw [if_neg hr]
                  by_cases hn : name = n
                  · subst hn
                    rw [if_pos (List.mem_cons_self _ _), stepBuf, hv, hdata1,
                      lookupBuf_updateBuf_self _ (hkeys name (List.mem_cons_self _ _))]
                  · rw [if_neg (by simp [List.mem_cons, hn, hr]), hdata1,
                      lookupBuf_updateBuf_ne _ hn]

/-- A run of the append loop that hits a series whose mapped value does not
convert: the loop raises at the first such series, returning the buffers
and log parts exactly as the error-free run over the earlier series left
them — later series are never reached. -/
theorem appendLoop_bad {k : Nat} (now : ℚ) (m : List (String × SVal))
    {bad : String} (post : List String)
    (hbad : lookupVal m bad = some SVal.bad) :
    ∀ (pre : List String) (data : List (String × List (ℚ × ℚ)))
      (parts : List (String × ℚ)),
      (∀ n ∈ pre, lookupVal m n ≠ some SVal.bad) →
      appendLoop k now m (pre ++ bad :: post) data parts =
        ((appendLoop k now m pre data parts).1,
         (appendLoop k now m pre data parts).2.1,
         some (AppendErr.floatConv bad)) := by
  intro pre
  induction pre with
  | nil =>
      intro data parts _
      simp [appendLoop, hbad]
  | cons n rest ih =>
      intro data parts hgood
      simp only [List.cons_append, appendLoop]
      cases hv : lookupVal m n with
      | none => exact ih data parts (fun a ha => hgood a (List.mem_cons_of_mem _ ha))
      | some v =>
          cases v with
          | bad => exact absurd hv (hgood n (List.mem_cons_self _ _))
          | num y => exact ih _ _ (fun a ha => hgood a (List.mem_cons_of_mem _ ha))

/-! ### Frame lemmas: which state fields each operation can touch -/

theorem appendMapping_frame (cfg : GraphConfig) (st : GraphState) (now : ℚ)
    (m : List (String × SVal)) :
    (appendMapping cfg st now m).1.running = st.running ∧
    (appendMapping cfg st now m).1.after_id = st.after_id ∧
    (appendMapping cfg st now m).1.y_min = st.y_min ∧
    (appendMapping cfg st now m).1.y_max = st.y_max ∧
    (appendMapping cfg st now m).1.btnText = st.btnText := by
  simp only [appendMapping]
  split <;> exact ⟨rfl, rfl, rfl, rfl, rfl⟩

theorem appendSample_frame (cfg : GraphConfig) (st : GraphState) (now : ℚ)
    (result : SamplerResult) :
    (appendSample cfg st now result).1.running = st.running ∧
    (appendSample cfg st now result).1.after_id = st.after_id ∧
    (appendSample cfg st now result).1.y_min = st.y_min ∧
    (appendSample cfg st now result).1.y_max = st.y_max ∧
    (appendSample cfg st now result).1.btnText = st.btnText := by
  cases result with
  | number y =>
      by_cases h1 : cfg.series.length ≠ 1
      · simp [appendSample, h1]
      · simp only [appendSample, if_neg h1]
        exact appendMapping_frame _ _ _ _
  | mapping m => exact appendMapping_frame _ _ _ _
  | other => exact ⟨rfl, rfl, rfl, rfl, rfl⟩

theorem redraw_frame (cfg : GraphConfig) (st : GraphState) (rawW rawH : ℤ) :
    (redraw cfg st rawW rawH).1.running = st.running ∧
    (redraw cfg st rawW rawH).1.after_id = st.after_id ∧
    (redraw cfg st rawW rawH).1.data = st.data ∧
    (redraw cfg st rawW rawH).1.logLines = st.logLines ∧
    (redraw cfg st rawW rawH).1.btnText = st.btnText := by
  simp only [redraw]
  split <;> exact ⟨rfl, rfl, rfl, rfl, rfl⟩

/-! ### The claims -/

/-- C10: `stop()` is idempotent and safe before any `start()`: for every
state it unconditionally clears the running flag and the pending-callback
handle (it is a total function, so it cannot raise; the swallowed
`after_cancel` failure never escapes), it touches nothing else, and running
it twice leaves exactly the state of running it once. -/
theorem stop_idempotent (st : GraphState) :
    (stop st).running = false ∧ (stop st).after_id = none ∧
    stop (stop st) = stop st ∧ (stop st).data = st.data ∧
    (stop st).y_min = st.y_min ∧ (stop st).y_max = st.y_max ∧
    (stop st).logLines = st.logLines :=
  ⟨rfl, rfl, rfl, rfl, rfl, rfl, rfl⟩

/-- C9: with an empty series list, a sampler returning a bare number makes
the append step raise the `ValueError` for numeric results (the length-1
test fails for zero series exactly as for two or more), with the whole
state unchanged. -/
theorem appendSample_empty_series (cfg : GraphConfig) (st : GraphState)
    (now y : ℚ) (h : cfg.series = []) :
    appendSample cfg st now (SamplerResult.number y) =
      (st, some AppendErr.numberMultiSeries) := by
  simp [appendSample, h]

theorem appendSample_empty_series_witness :
    appendSample ⟨[], 2000, 30, 1/10, 1/5, true, 100⟩
        ⟨false, none, [], none, none, [], "Start"⟩ 0 (SamplerResult.number 5) =
      (⟨false, none, [], none, none, [], "Start"⟩,
       some AppendErr.numberMultiSeries) :=
  appendSample_empty_series _ _ _ _ rfl

/-- C4: a sampler result that is a bare number while at least two series
are configured, or that is neither a number nor a mapping, makes the
append step return the usage error immediately with every buffer (indeed
the whole state) unchanged. -/
theorem appendSample_usage_error (cfg : GraphConfig) (st : GraphState) (now : ℚ) :
    (∀ y : ℚ, 2 ≤ cfg.series.length →
       appendSample cfg st now (SamplerResult.number y) =
         (st, some AppendErr.numberMultiSeries)) ∧
    appendSample cfg st now SamplerResult.other =
      (st, some AppendErr.notDict) := by
  refine ⟨fun y h2 => ?_, rfl⟩
  have h1 : cfg.series.length ≠ 1 := by omega
  simp [appendSample, h1]

theorem appendSample_usage_error_witness :
    2 ≤ (⟨["x", "y"], 2000, 30, 1/10, 1/5, true, 100⟩ : GraphConfig).series.length ∧
    appendSample ⟨["x", "y"], 2000, 30, 1/10, 1/5, true, 100⟩
        ⟨false, none, [("x", []), ("y", [])], none, none, [], "Start"⟩ 0
        (SamplerResult.number 5) =
      (⟨false, none, [("x", []), ("y", [])], none, none, [], "Start"⟩,
       some AppendErr.numberMultiSeries) :=
  ⟨by decide,
   (appendSample_usage_error ⟨["x", "y"], 2000, 30, 1/10, 1/5, true, 100⟩
      ⟨false, none, [("x", []), ("y", [])], none, none, [], "Start"⟩ 0).1 5
     (by decide)⟩

/-- C7: `sample_once()` schedules nothing, leaves the running flag and the
pending-callback handle exactly as they were (whether or not periodic
sampling is active), and its buffer contents are exactly those of its one
sample-and-append step (the one redraw changes no buffer). -/
theorem sampleOnce_frame (cfg : GraphConfig) (st : GraphState) (now : ℚ)
    (result : SamplerResult) (rawW rawH : ℤ) :
    (sampleOnce cfg st now result rawW rawH).scheduled = none ∧
    (sampleOnce cfg st now result rawW rawH).state.running = st.running ∧
    (sampleOnce cfg st now result rawW rawH).state.after_id = st.after_id ∧
    (sampleOnce cfg st now result rawW rawH).state.data =
      (appendSample cfg st now result).1.data := by
  simp only [sampleOnce]
  split
  · exact ⟨rfl, (appendSample_frame cfg st now result).1,
      (appendSample_frame cfg st now result).2.1, rfl⟩
  · exact ⟨rfl,
      ((redraw_frame cfg _ rawW rawH).1).trans (appendSample_frame cfg st now result).1,
      ((redraw_frame cfg _ rawW rawH).2.1).trans (appendSample_frame cfg st now result).2.1,
      (redraw_frame cfg _ rawW rawH).2.2.1⟩

/-- C6: a stale tick firing on a stopped graph is a complete no-op (state
untouched, no redraw, no reschedule); since `stop()` always clears the
running flag, a tick firing after any `stop()` is such a no-op, and in
particular `start()` immediately followed by `stop()` appends no further
sample once `stop()` has returned. -/
theorem tick_stale_noop (cfg : GraphConfig) (st st2 st3 : GraphState)
    (now now2 : ℚ) (result result2 : SamplerResult)
    (rawW rawH rawW2 rawH2 : ℤ) (i i2 : Nat) :
    (st.running = false →
       tick cfg st now result rawW rawH i = ⟨st, none, [], none⟩) ∧
    tick cfg (stop st2) now result rawW rawH i = ⟨stop st2, none, [], none⟩ ∧
    (tick cfg (stop (start cfg st3 now result rawW rawH i).state)
        now2 result2 rawW2 rawH2 i2).state.data =
      (stop (start cfg st3 now result rawW rawH i).state).data := by
  have key : ∀ (s : GraphState) (n : ℚ) (r : SamplerResult) (w h : ℤ) (j : Nat),
      s.running = false → tick cfg s n r w h j = ⟨s, none, [], none⟩ := by
    intro s n r w h j hs
    simp [tick, hs]
  exact ⟨key st now result rawW rawH i, key _ now result rawW rawH i rfl,
    by rw [key _ now2 result2 rawW2 rawH2 i2 rfl]⟩

theorem tick_stale_noop_witness :
    ((⟨false, none, [("cpu", [])], none, none, [], "Start"⟩ : GraphState).running = false) ∧
    tick ⟨["cpu"], 2000, 30, 1/10, 1/5, true, 100⟩
        ⟨false, none, [("cpu", [])], none, none, [], "Start"⟩ 0
        (SamplerResult.number 1) 200 200 7 =
      ⟨⟨false, none, [("cpu", [])], none, none, [], "Start"⟩, none, [], none⟩ :=
  ⟨rfl,
   (tick_stale_noop ⟨["cpu"], 2000, 30, 1/10, 1/5, true, 100⟩
      ⟨false, none, [("cpu", [])], none, none, [], "Start"⟩
      ⟨false, none, [("cpu", [])], none, none, [], "Start"⟩
      ⟨false, none, [("cpu", [])], none, none, [], "Start"⟩
      0 0 (SamplerResult.number 1) (SamplerResult.number 1)
      200 200 200 200 7 7).1 rfl⟩

theorem appendMapping_invariant (cfg : GraphConfig) (st st' : GraphState)
    (now : ℚ) (m : List (String × SVal))
    (hmax : 1 ≤ cfg.max_points)
    (hlen : ∀ name, (lookupBuf st.data name).length ≤ cfg.max_points)
    (hstep : appendMapping cfg st now m = (st', none)) :
    ∀ name ∈ cfg.series,
      (lookupBuf st'.data name).length ≤ cfg.max_points ∧
      ∀ p ∈ lookupBuf st'.data name, now - cfg.window_seconds ≤ p.1 := by
  simp only [appendMapping] at hstep
  split at hstep
  · exact absurd (congrArg Prod.snd hstep) (by simp)
  · rw [Prod.mk.injEq] at hstep
    have hd : st'.data = trimAll (now - cfg.window_seconds) cfg.series
        (appendLoop cfg.max_points now m cfg.series st.data []).1 := by
      rw [← hstep.1]
    intro name hname
    rw [hd, lookupBuf_trimAll, if_pos hname]
    refine ⟨?_, ?_⟩
    · exact le_trans (List.length_filter_le _ _)
        (appendLoop_length_le hmax now m cfg.series st.data [] hlen name)
    · intro p hp
      exact of_decide_eq_true (List.mem_filter.mp hp).2

/-- C1: after every completed sample-and-append step (the common path of a
periodic tick and of `sample_once()`), every configured series' buffer has
at most `max_points` entries and every retained timestamp is at least
`now - window_seconds`, where `now` is the timestamp taken at the start of
the step; the cap hypothesis `1 ≤ max_points` and the incoming length bound
match the documented constructor contract and the empty initial buffers. -/
theorem appendSample_invariant (cfg : GraphConfig) (st st' : GraphState)
    (now : ℚ) (result : SamplerResult)
    (hmax : 1 ≤ cfg.max_points)
    (hlen : ∀ name, (lookupBuf st.data name).length ≤ cfg.max_points)
    (hstep : appendSample cfg st now result = (st', none)) :
    ∀ name ∈ cfg.series,
      (lookupBuf st'.data name).length ≤ cfg.max_points ∧
      ∀ p ∈ lookupBuf st'.data name, now - cfg.window_seconds ≤ p.1 := by
  cases result with
  | number y =>
      by_cases h1 : cfg.series.length ≠ 1
      · rw [appendSample, if_pos h1] at hstep
        exact absurd (congrArg Prod.snd hstep) (by simp)
      · rw [appendSample, if_neg h1] at hstep
        exact appendMapping_invariant cfg st st' now _ hmax hlen hstep
  | mapping m => exact appendMapping_invariant cfg st st' now m hmax hlen hstep
  | other =>
      exact absurd (congrArg Prod.snd hstep) (by simp [appendSample])

theorem appendSample_invariant_witness :
    (1 ≤ (⟨["cpu"], 3, 30, 1/10, 1/5, true, 100⟩ : GraphConfig).max_points) ∧
    (∀ name ∈ (⟨["cpu"], 3, 30, 1/10, 1/5, true, 100⟩ : GraphConfig).series,
      (lookupBuf (⟨false, none, [("cpu", [(0, 42)])], none, none,
          [[("cpu", 42)]], "Start"⟩ : GraphState).data name).length ≤
        (⟨["cpu"], 3, 30, 1/10, 1/5, true, 100⟩ : GraphConfig).max_points ∧
      ∀ p ∈ lookupBuf (⟨false, none, [("cpu", [(0, 42)])], none, none,
          [[("cpu", 42)]], "Start"⟩ : GraphState).data name,
        (0 : ℚ) - (⟨["cpu"], 3, 30, 1/10, 1/5, true, 100⟩ : GraphConfig).window_seconds ≤ p.1) :=
  ⟨by decide,
   appendSample_invariant ⟨["cpu"], 3, 30, 1/10, 1/5, true, 100⟩
     ⟨false, none, [("cpu", [])], none, none, [], "Start"⟩
     ⟨false, none, [("cpu", [(0, 42)])], none, none, [[("cpu", 42)]], "Start"⟩
     0 (SamplerResult.number 42) (by decide)
     (fun name => by simp [lookupBuf])
     (by norm_num [appendSample, appendMapping, appendLoop, lookupVal,
       updateBuf, hardCap, windowTrim, trimAll, lookupBuf])⟩

/-- C5: on a mapping result whose values all convert, the step succeeds:
each configured series present in the mapping gets exactly one `(now, y)`
pair appended (then capped and window-trimmed), a configured series absent
from the mapping is only window-trimmed (no new sample, no error), mapping
keys outside the series list are ignored (the result depends only on the
lookups of configured names), and the log line added (when the log exists
and some series received a value) holds exactly the `(name, value)` parts
of the series that received a value, in series order. -/
theorem appendSample_mapping_ok (cfg : GraphConfig) (st : GraphState)
    (now : ℚ) (m : List (String × SVal))
    (hnd : cfg.series.Nodup)
    (hkeys : ∀ n ∈ cfg.series, n ∈ st.data.map Prod.fst)
    (hgood : ∀ n ∈ cfg.series, lookupVal m n ≠ some SVal.bad) :
    (appendSample cfg st now (SamplerResult.mapping m)).2 = none ∧
    (∀ name ∈ cfg.series,
       lookupBuf (appendSample cfg st now (SamplerResult.mapping m)).1.data name =
         windowTrim (now - cfg.window_seconds)
           (stepBuf cfg.max_points now m name (lookupBuf st.data name))) ∧
    (appendSample cfg st now (SamplerResult.mapping m)).1.logLines =
      (if cfg.show_log ∧ partsOf m cfg.series ≠ [] then
         st.logLines ++ [partsOf m cfg.series] else st.logLines) := by
  obtain ⟨he, hp, -, hlk⟩ :=
    appendLoop_ok (k := cfg.max_points) now m cfg.series st.data [] hnd hkeys hgood
  refine ⟨?_, ?_, ?_⟩
  · simp [appendSample, appendMapping, he]
  · intro name hname
    simp only [appendSample, appendMapping, he]
    rw [lookupBuf_trimAll, if_pos hname, hlk name, if_pos hname]
  · simp only [appendSample, appendMapping, he, hp, List.nil_append]

theorem appendSample_mapping_ok_witness :
    ((⟨["a", "b"], 2000, 30, 1/10, 1/5, true, 100⟩ : GraphConfig).series.Nodup) ∧
    (appendSample ⟨["a", "b"], 2000, 30, 1/10, 1/5, true, 100⟩
        ⟨false, none, [("a", []), ("b", [])], none, none, [], "Start"⟩ 1
        (SamplerResult.mapping [("a", SVal.num 1)])).2 = none :=
  ⟨by decide,
   (appendSample_mapping_ok ⟨["a", "b"], 2000, 30, 1/10, 1/5, true, 100⟩
      ⟨false, none, [("a", []), ("b", [])], none, none, [], "Start"⟩ 1
      [("a", SVal.num 1)] (by decide) (by decide) (by decide)).1⟩

/-- C8: when the mapping assigns a configured series a value on which
`float()` raises, the step fails part-way through the series loop: every
earlier configured series present in the mapping keeps its freshly
appended (and capped) sample, the failing and all later series are
untouched, and the window trim and the log append are skipped — the error
is not atomic with respect to buffer state. -/
theorem appendSample_partial_on_bad (cfg : GraphConfig) (st : GraphState)
    (now : ℚ) (m : List (String × SVal)) (pre post : List String) (bad : String)
    (hser : cfg.series = pre ++ bad :: post)
    (hnd : pre.Nodup)
    (hkeys : ∀ n ∈ pre, n ∈ st.data.map Prod.fst)
    (hgood : ∀ n ∈ pre, lookupVal m n ≠ some SVal.bad)
    (hbad : lookupVal m bad = some SVal.bad) :
    (appendSample cfg st now (SamplerResult.mapping m)).2 =
      some (AppendErr.floatConv bad) ∧
    (appendSample cfg st now (SamplerResult.mapping m)).1.logLines = st.logLines ∧
    (appendSample cfg st now (SamplerResult.mapping m)).1.y_min = st.y_min ∧
    ∀ name,
      lookupBuf (appendSample cfg st now (SamplerResult.mapping m)).1.data name =
        if name ∈ pre then stepBuf cfg.max_points now m name (lookupBuf st.data name)
        else lookupBuf st.data name := by
  obtain ⟨-, -, -, hlk⟩ :=
    appendLoop_ok (k := cfg.max_points) now m pre st.data [] hnd hkeys hgood
  simp only [appendSample, appendMapping, hser,
    appendLoop_bad (k := cfg.max_points) now m post hbad pre st.data [] hgood]
  exact ⟨trivial, trivial, trivial, hlk⟩

theorem appendSample_partial_on_bad_witness :
    ((⟨["a", "b", "c"], 2000, 30, 1/10, 1/5, true, 100⟩ : GraphConfig).series =
       ["a"] ++ "b" :: ["c"]) ∧
    (appendSample ⟨["a", "b", "c"], 2000, 30, 1/10, 1/5, true, 100⟩
        ⟨false, none, [("a", [(-100, 7)]), ("b", []), ("c", [])], none, none, [], "Start"⟩
        0 (SamplerResult.mapping [("a", SVal.num 1), ("b", SVal.bad)])).2 =
      some (AppendErr.floatConv "b") :=
  ⟨rfl,
   (appendSample_partial_on_bad ⟨["a", "b", "c"], 2000, 30, 1/10, 1/5, true, 100⟩
      ⟨false, none, [("a", [(-100, 7)]), ("b", []), ("c", [])], none, none, [], "Start"⟩
      0 [("a", SVal.num 1), ("b", SVal.bad)] ["a"] ["c"] "b"
      rfl (by decide) (by decide) (by decide) rfl).1⟩

/-! ### The smoothed y-range and the redraw claims -/

theorem range_five : List.range 5 = [0, 1, 2, 3, 4] := rfl

theorem redraw_eq_of_two_le (cfg : GraphConfig) (st : GraphState) (rawW rawH : ℤ)
    (h : ¬ (allPoints cfg st.data).length < 2) :
    redraw cfg st rawW rawH =
      ({ st with
          y_min := some (updateRange cfg.smooth_y st.y_min st.y_max
            (listMin ((allPoints cfg st.data).map Prod.snd))
            (listMax ((allPoints cfg st.data).map Prod.snd))).1,
          y_max := some (updateRange cfg.smooth_y st.y_min st.y_max
            (listMin ((allPoints cfg st.data).map Prod.snd))
            (listMax ((allPoints cfg st.data).map Prod.snd))).2 },
       renderCmds cfg st.data (max 10 rawW) (max 10 rawH)
         (updateRange cfg.smooth_y st.y_min st.y_max
            (listMin ((allPoints cfg st.data).map Prod.snd))
            (listMax ((allPoints cfg st.data).map Prod.snd))).1
         (updateRange cfg.smooth_y st.y_min st.y_max
            (listMin ((allPoints cfg st.data).map Prod.snd))
            (listMax ((allPoints cfg st.data).map Prod.snd))).2) := by
  simp only [redraw, if_neg h]

theorem updateRange_fixed (s rm rM : ℚ) :
    updateRange s (some rm) (some rM) rm rM = (rm, rM) := by
  simp only [updateRange]
  have h1 : (1 - clamp01 s) * rm + clamp01 s * rm = rm := by ring
  have h2 : (1 - clamp01 s) * rM + clamp01 s * rM = rM := by ring
  rw [h1, h2, min_self, max_self]

/-- C2: immediately after the smoothed y-range update inside `redraw`
(which runs whenever at least 2 points are buffered in total), the
smoothed bounds bracket the raw bounds: `smoothed_min ≤ raw_min` and
`raw_max ≤ smoothed_max`; moreover the first update seeds the smoothed
range directly from the raw bounds and every later update blends
`new = (1-a)*old + a*raw` with `a` the smoothing factor clamped to
`[0, 1]`, then widens (never narrows) to cover the raw bounds. -/
theorem redraw_smoothed_range (cfg : GraphConfig) (st : GraphState)
    (rawW rawH : ℤ)
    (h2 : 2 ≤ (allPoints cfg st.data).length) :
    ∃ m M,
      (redraw cfg st rawW rawH).1.y_min = some m ∧
      (redraw cfg st rawW rawH).1.y_max = some M ∧
      m ≤ listMin ((allPoints cfg st.data).map Prod.snd) ∧
      listMax ((allPoints cfg st.data).map Prod.snd) ≤ M ∧
      ((st.y_min = none ∨ st.y_max = none) →
        m = listMin ((allPoints cfg st.data).map Prod.snd) ∧
        M = listMax ((allPoints cfg st.data).map Prod.snd)) ∧
      (∀ om oM, st.y_min = some om → st.y_max = some oM →
        m = min ((1 - clamp01 cfg.smooth_y) * om +
            clamp01 cfg.smooth_y * listMin ((allPoints cfg st.data).map Prod.snd))
          (listMin ((allPoints cfg st.data).map Prod.snd)) ∧
        M = max ((1 - clamp01 cfg.smooth_y) * oM +
            clamp01 cfg.smooth_y * listMax ((allPoints cfg st.data).map Prod.snd))
          (listMax ((allPoints cfg st.data).map Prod.snd))) := by
  have hlt : ¬ (allPoints cfg st.data).length < 2 := by omega
  rw [redraw_eq_of_two_le cfg st rawW rawH hlt]
  refine ⟨_, _, rfl, rfl, ?_, ?_, ?_, ?_⟩
  · cases hm : st.y_min <;> cases hM : st.y_max <;> simp [updateRange, hm, hM]
  · cases hm : st.y_min <;> cases hM : st.y_max <;> simp [updateRange, hm, hM]
  · intro h
    rcases h with h | h <;> cases hm : st.y_min <;> cases hM : st.y_max <;>
      simp_all [updateRange]
  · intro om oM hom hoM
    simp [updateRange, hom, hoM]

theorem redraw_smoothed_range_witness :
    2 ≤ (allPoints cfgSmall stLag.data).length ∧
    (∃ m M,
      (redraw cfgSmall stLag 200 200).1.y_min = some m ∧
      (redraw cfgSmall stLag 200 200).1.y_max = some M ∧
      m ≤ listMin ((allPoints cfgSmall stLag.data).map Prod.snd) ∧
      listMax ((allPoints cfgSmall stLag.data).map Prod.snd) ≤ M) := by
  refine ⟨by decide, ?_⟩
  obtain ⟨m, M, h1, h2, h3, h4, -, -⟩ :=
    redraw_smoothed_range cfgSmall stLag 200 200 (by decide)
  exact ⟨m, M, h1, h2, h3, h4⟩

/-- C3 is false as stated: at the reachable state `stLag`, whose smoothed
range `(0, 1)` lags behind the raw bounds `(5, 6)`, the blend moves the
smoothed range on every call, so `redraw` changes the stored smoothed
range (state beyond the drawing) and two consecutive calls with unchanged
buffers and a fixed 200 by 200 surface emit different instruction lists
(the value-axis labels and the mapped polyline differ). -/
theorem redraw_not_idempotent_counterexample :
    (redraw cfgSmall stLag 200 200).2 ≠
      (redraw cfgSmall (redraw cfgSmall stLag 200 200).1 200 200).2 ∧
    (redraw cfgSmall stLag 200 200).1.y_min ≠ stLag.y_min := by
  constructor
  · norm_num [redraw, renderCmds, allPoints, lookupBuf, listMin, listMax,
      updateRange, clamp01, drawFrameCmds, gridCmds, seriesCmds, legendCmds,
      xOf, yOf, SERIES_COLORS, range_five, List.enum, List.enumFrom,
      cfgSmall, stLag]
  · norm_num [redraw, allPoints, lookupBuf, listMin, listMax, updateRange,
      clamp01, cfgSmall, stLag]

/-- C3 (amended): `redraw` mutates no state other than the smoothed
y-range, and two consecutive `redraw` calls with no intervening data
change produce the same drawing instructions provided the smoothed range
is still uninitialized or already coincides with the raw bounds (in
general the exponential blend moves the smoothed range each call, so the
instruction lists may differ until it converges). -/
theorem redraw_idempotent_amended (cfg : GraphConfig) (st : GraphState)
    (rawW rawH : ℤ) :
    ((redraw cfg st rawW rawH).1.data = st.data ∧
     (redraw cfg st rawW rawH).1.running = st.running ∧
     (redraw cfg st rawW rawH).1.after_id = st.after_id ∧
     (redraw cfg st rawW rawH).1.logLines = st.logLines ∧
     (redraw cfg st rawW rawH).1.btnText = st.btnText) ∧
    (((st.y_min = none ∧ st.y_max = none) ∨
      (st.y_min = some (listMin ((allPoints cfg st.data).map Prod.snd)) ∧
       st.y_max = some (listMax ((allPoints cfg st.data).map Prod.snd)))) →
      (redraw cfg (redraw cfg st rawW rawH).1 rawW rawH).2 =
        (redraw cfg st rawW rawH).2) := by
  constructor
  · obtain ⟨h1, h2, h3, h4, h5⟩ := redraw_frame cfg st rawW rawH
    exact ⟨h3, h1, h2, h4, h5⟩
  · intro hy
    by_cases hlt : (allPoints cfg st.data).length < 2
    · have he : (redraw cfg st rawW rawH).1 = st := by
        simp only [redraw, if_pos hlt]
      rw [he]
    · have hfix : updateRange cfg.smooth_y st.y_min st.y_max
          (listMin ((allPoints cfg st.data).map Prod.snd))
          (listMax ((allPoints cfg st.data).map Prod.snd)) =
          (listMin ((allPoints cfg st.data).map Prod.snd),
           listMax ((allPoints cfg st.data).map Prod.snd)) := by
        rcases hy with ⟨hm, hM⟩ | ⟨hm, hM⟩
        · rw [hm, hM]; rfl
        · rw [hm, hM, updateRange_fixed]
      rw [redraw_eq_of_two_le cfg st rawW rawH hlt]
      rw [redraw_eq_of_two_le cfg _ rawW rawH (by simpa using hlt)]
      dsimp only
      rw [hfix]
      dsimp only
      rw [updateRange_fixed]

theorem redraw_idempotent_amended_witness :
    (stSeed.y_min = none ∧ stSeed.y_max = none) ∧
    (redraw cfgSmall (redraw cfgSmall stSeed 200 200).1 200 200).2 =
      (redraw cfgSmall stSeed 200 200).2 :=
  ⟨⟨rfl, rfl⟩,
   (redraw_idempotent_amended cfgSmall stSeed 200 200).2 (Or.inl ⟨rfl, rfl⟩)⟩

end EasyUI
